import Mathlib

/-!
Shallow embedding of the n8n-nodes-gedcom core: the dual-strategy GEDCOM
parser (src/lib/gedcom-parser.ts, reproduced in src/test/unit) and the
ancestry/descendant traversal engine (src/lib/gedcom-ancestry.ts).

JavaScript strings are modelled as lists of characters, byte buffers as
lists of naturals, `undefined`-able values as `Option`, thrown exceptions
as `Except`, and JS `Map`/`Set` built by insertion as last-wins lookup
over the source list / insertion-ordered lists.
-/

namespace GedcomSpec

/-- JS string, modelled as its character sequence. -/
abbrev Str := List Char

/-- Canonical model (gedcom-types, spec section 3): one parsed individual. -/
structure ParsedPerson where
  id : Str
  name : Str
  firstName : Option Str
  lastName : Option Str
  birthDate : Str
  deathDate : Str
  famc : List Str
  fams : List Str
deriving DecidableEq

/-- Canonical model: one parsed family. -/
structure ParsedFamily where
  id : Str
  husband : Option Str
  wife : Option Str
  children : List Str
deriving DecidableEq

/-- Canonical model: result metadata. -/
structure ParseMeta where
  individuals : Nat
  families : Nat
  encodingTag : Str
deriving DecidableEq

/-- Canonical model: the unit of exchange between parsing and traversal. -/
structure ParseResult where
  meta : ParseMeta
  persons : List ParsedPerson
  families : List ParsedFamily
deriving DecidableEq

/-- Edge relation of the ancestry graph: the only two values the engine emits. -/
inductive Relation where
  | father
  | mother
deriving DecidableEq

/-- One parent/child edge of an AncestryResult. -/
structure AncEdge where
  parent : Str
  child : Str
  relation : Relation
deriving DecidableEq

/-- Result of computeAncestors / computeDescendants. -/
structure AncestryResult where
  root : Str
  generations : List (List Str)
  nodes : List ParsedPerson
  edges : List AncEdge
deriving DecidableEq

instance {e a : Type} [DecidableEq e] [DecidableEq a] : DecidableEq (Except e a)
  | Except.error x, Except.error y =>
    if h : x = y then isTrue (by rw [h]) else
      isFalse (fun hc => by injection hc; contradiction)
  | Except.error _, Except.ok _ => isFalse (fun hc => Except.noConfusion hc)
  | Except.ok _, Except.error _ => isFalse (fun hc => Except.noConfusion hc)
  | Except.ok x, Except.ok y =>
    if h : x = y then isTrue (by rw [h]) else
      isFalse (fun hc => by injection hc; contradiction)

/-- GedcomParser.canonicalizeId / GedcomAncestry.canonicalizeId:
`if (!id) return ''; if (id.startsWith('@') && id.endsWith('@')) return id;
return `@${id}@`;`. -/
def canonicalizeId (id : Str) : Str :=
  if id = [] then []
  else if List.isPrefixOf ['@'] id = true ∧ List.isSuffixOf ['@'] id = true then id
  else '@' :: (id ++ ['@'])

/-- JS `Map` built by `for (p of persons) map.set(p.id, p)` followed by `get`:
last insertion for a key wins. -/
def lookupPerson (persons : List ParsedPerson) (id : Str) : Option ParsedPerson :=
  persons.reverse.find? (fun p => decide (p.id = id))

/-- Same for the family map. -/
def lookupFamily (families : List ParsedFamily) (id : Str) : Option ParsedFamily :=
  families.reverse.find? (fun f => decide (f.id = id))

/-- Working triple of the generation loops: (nextGeneration, visitedPersons, edges).
`visitedPersons` is the JS `Set` in insertion order. -/
abbrev Triple := List Str × List Str × List AncEdge

/-- computeAncestors inner block, shared verbatim between the husband
(father) and wife (mother) cases:
`if (family.husband && !visitedPersons.has(family.husband)) { push; add; edges.push }`. -/
def tryDiscover (parentOpt : Option Str) (childId : Str) (rel : Relation)
    (nev : Triple) : Triple :=
  match parentOpt with
  | none => nev
  | some h =>
    if h ≠ [] ∧ h ∉ nev.2.1 then
      (nev.1 ++ [h], nev.2.1 ++ [h], nev.2.2 ++ [⟨h, childId, rel⟩])
    else nev

/-- computeAncestors: `for (const familyId of person.famc) { ... }`. -/
def ancFamilies (fm : Str → Option ParsedFamily) (personId : Str) :
    List Str → Triple → Triple
  | [], nev => nev
  | famId :: rest, nev =>
    match fm famId with
    | none => ancFamilies fm personId rest nev
    | some family =>
      ancFamilies fm personId rest
        (tryDiscover family.wife personId Relation.mother
          (tryDiscover family.husband personId Relation.father nev))

/-- computeAncestors: `for (const personId of currentGeneration) { ... }`. -/
def ancGeneration (pm : Str → Option ParsedPerson) (fm : Str → Option ParsedFamily) :
    List Str → Triple → Triple
  | [], nev => nev
  | personId :: rest, nev =>
    match pm personId with
    | none => ancGeneration pm fm rest nev
    | some person => ancGeneration pm fm rest (ancFamilies fm personId person.famc nev)

/-- computeDescendants: `for (const childId of family.children) { ... }`,
with `relation = person.id === family.husband ? 'father' : 'mother'`. -/
def descChildren (person : ParsedPerson) (personId : Str) (family : ParsedFamily) :
    List Str → Triple → Triple
  | [], nev => nev
  | childId :: rest, nev =>
    if childId ∉ nev.2.1 then
      descChildren person personId family rest
        (nev.1 ++ [childId], nev.2.1 ++ [childId],
          nev.2.2 ++ [⟨personId, childId,
            if family.husband = some person.id then Relation.father else Relation.mother⟩])
    else descChildren person personId family rest nev

/-- computeDescendants: `for (const familyId of person.fams) { ... }`. -/
def descFamilies (fm : Str → Option ParsedFamily) (person : ParsedPerson) (personId : Str) :
    List Str → Triple → Triple
  | [], nev => nev
  | famId :: rest, nev =>
    match fm famId with
    | none => descFamilies fm person personId rest nev
    | some family =>
      descFamilies fm person personId rest
        (descChildren person personId family family.children nev)

/-- computeDescendants: `for (const personId of currentGeneration) { ... }`. -/
def descGeneration (pm : Str → Option ParsedPerson) (fm : Str → Option ParsedFamily) :
    List Str → Triple → Triple
  | [], nev => nev
  | personId :: rest, nev =>
    match pm personId with
    | none => descGeneration pm fm rest nev
    | some person => descGeneration pm fm rest (descFamilies fm person personId person.fams nev)

/-- Mutable state of the generation loop. -/
structure TravState where
  generations : List (List Str)
  visited : List Str
  edges : List AncEdge
  current : List Str
deriving DecidableEq

/-- The bounded generation loop shared by both traversals:
`for (let gen = 0; gen < maxGenerations && currentGeneration.length > 0; gen++)
 { generations.push([...currentGeneration]); ...expand...; current = next; }`. -/
def travLoop (expand : List Str → Triple → Triple) : Nat → TravState → TravState
  | 0, st => st
  | n + 1, st =>
    if st.current = [] then st
    else
      travLoop expand n
        ⟨st.generations ++ [st.current],
          (expand st.current ([], st.visited, st.edges)).2.1,
          (expand st.current ([], st.visited, st.edges)).2.2,
          (expand st.current ([], st.visited, st.edges)).1⟩

/-- `Root person with ID '<rootId>' not found in GEDCOM data` (apostrophes
written via their character code). -/
def rootNotFoundMsg (rootId : Str) : Str :=
  ("Root person with ID ".data) ++ [Char.ofNat 39] ++ rootId ++ [Char.ofNat 39] ++
    (" not found in GEDCOM data".data)

/-- Final loop state of computeAncestors (generation 0 seeded with the
canonical root, which is also pre-visited). -/
def ancFinalState (pr : ParseResult) (rootId : Str) (maxGenerations : Nat) : TravState :=
  travLoop (ancGeneration (lookupPerson pr.persons) (lookupFamily pr.families))
    maxGenerations
    ⟨[], [canonicalizeId rootId], [], [canonicalizeId rootId]⟩

/-- GedcomAncestry.computeAncestors. The thrown NodeOperationError is an
`Except.error`; `nodes` is `Array.from(visitedPersons).map(get).filter(defined)`. -/
def computeAncestors (pr : ParseResult) (rootId : Str) (maxGenerations : Nat) :
    Except Str AncestryResult :=
  match lookupPerson pr.persons (canonicalizeId rootId) with
  | none => Except.error (rootNotFoundMsg rootId)
  | some _ =>
    Except.ok
      ⟨canonicalizeId rootId,
        (ancFinalState pr rootId maxGenerations).generations,
        (ancFinalState pr rootId maxGenerations).visited.filterMap (lookupPerson pr.persons),
        (ancFinalState pr rootId maxGenerations).edges⟩

/-- Final loop state of computeDescendants. -/
def descFinalState (pr : ParseResult) (rootId : Str) (maxGenerations : Nat) : TravState :=
  travLoop (descGeneration (lookupPerson pr.persons) (lookupFamily pr.families))
    maxGenerations
    ⟨[], [canonicalizeId rootId], [], [canonicalizeId rootId]⟩

/-- GedcomAncestry.computeDescendants. -/
def computeDescendants (pr : ParseResult) (rootId : Str) (maxGenerations : Nat) :
    Except Str AncestryResult :=
  match lookupPerson pr.persons (canonicalizeId rootId) with
  | none => Except.error (rootNotFoundMsg rootId)
  | some _ =>
    Except.ok
      ⟨canonicalizeId rootId,
        (descFinalState pr rootId maxGenerations).generations,
        (descFinalState pr rootId maxGenerations).visited.filterMap (lookupPerson pr.persons),
        (descFinalState pr rootId maxGenerations).edges⟩

/-- Name components returned by GedcomNameParser.parseName. -/
structure ParsedName where
  fullName : Str
  firstName : Option Str
  lastName : Option Str
deriving DecidableEq

/-- JS `String.prototype.trim`. -/
def trimStr (s : Str) : Str :=
  ((s.dropWhile Char.isWhitespace).reverse.dropWhile Char.isWhitespace).reverse

/-- JS `Array.prototype.flatten(' ')`. -/
def joinSpace : List Str → Str
  | [] => []
  | [s] => s
  | s :: rest => s ++ ' ' :: joinSpace rest

/-- Leftmost match of the regex `\/([^\/]+)\//` : the first index holding a
slash that is followed by a non-empty slash-free run and a closing slash;
returns the index and the captured group. -/
def findSlashMatch : List Char → Nat → Option (Nat × Str)
  | [], _ => none
  | c :: rest, i =>
    if c = '/' then
      let g := rest.takeWhile (fun ch => decide (ch ≠ '/'))
      if g ≠ [] ∧ rest.drop g.length ≠ [] then some (i, g)
      else findSlashMatch rest (i + 1)
    else findSlashMatch rest (i + 1)

/-- Tail of GedcomNameParser.parseName: rebuild fullName from the parts and
turn empty components into `undefined`. -/
def mkParsedName (nameValue firstName lastName : Str) : ParsedName :=
  let fullName :=
    if firstName ≠ [] ∧ lastName ≠ [] then firstName ++ ' ' :: lastName
    else if firstName ≠ [] then firstName
    else if lastName ≠ [] then lastName
    else []
  ⟨if fullName = [] then nameValue else fullName,
    if firstName = [] then none else some firstName,
    if lastName = [] then none else some lastName⟩

/-- GedcomNameParser.parseName: split a slash-delimited GEDCOM name value. -/
def parseName (nameValue : Str) : ParsedName :=
  if nameValue = [] then ⟨[], none, none⟩
  else
    match findSlashMatch nameValue 0 with
    | some (idx, g) =>
      let lastName := trimStr g
      let beforeLastName := trimStr (nameValue.take idx)
      let afterLastName := trimStr (nameValue.drop (idx + (g.length + 2)))
      let firstName :=
        joinSpace ([beforeLastName, afterLastName].filter (fun part => decide (part ≠ [])))
      mkParsedName nameValue firstName lastName
    | none => mkParsedName nameValue (trimStr nameValue) []

/-- `data` bag of a parse-gedcom record node. -/
structure GData where
  xref_id : Option Str
  pointer : Option Str

/-- Generic record-tree node consumed by the primary normalizer
(tag, optional scalar value, optional data bag, optional children array). -/
inductive GNode where
  | mk : Str → Option Str → Option GData → Option (List GNode) → GNode

def GNode.type : GNode → Str
  | .mk t _ _ _ => t

def GNode.value : GNode → Option Str
  | .mk _ v _ _ => v

def GNode.data : GNode → Option GData
  | .mk _ _ d _ => d

def GNode.children : GNode → Option (List GNode)
  | .mk _ _ _ c => c

/-- JS truthiness of `record.data && record.data.xref_id`. -/
def xrefOf (n : GNode) : Option Str :=
  match n.data with
  | none => none
  | some d =>
    match d.xref_id with
    | none => none
    | some x => if x = [] then none else some x

/-- JS truthiness of `child.data && child.data.pointer`. -/
def pointerOf (n : GNode) : Option Str :=
  match n.data with
  | none => none
  | some d =>
    match d.pointer with
    | none => none
    | some p => if p = [] then none else some p

/-- One switch case of GedcomParser.parseIndividual's child walk. -/
def personFoldChild (person : ParsedPerson) (child : GNode) : ParsedPerson :=
  if child.type = ("NAME".data) then
    let parsed := parseName (child.value.getD [])
    { person with
        name := parsed.fullName,
        firstName := parsed.firstName,
        lastName := parsed.lastName }
  else if child.type = ("BIRT".data) then
    match child.children with
    | some cs =>
      match cs.find? (fun g => decide (g.type = ("DATE".data))) with
      | some d => { person with birthDate := d.value.getD [] }
      | none => person
    | none => person
  else if child.type = ("DEAT".data) then
    match child.children with
    | some cs =>
      match cs.find? (fun g => decide (g.type = ("DATE".data))) with
      | some d => { person with deathDate := d.value.getD [] }
      | none => person
    | none => person
  else if child.type = ("FAMC".data) then
    match pointerOf child with
    | some p => { person with famc := person.famc ++ [p] }
    | none => person
  else if child.type = ("FAMS".data) then
    match pointerOf child with
    | some p => { person with fams := person.fams ++ [p] }
    | none => person
  else person

/-- GedcomParser.parseIndividual. -/
def parseIndividual (record : GNode) : ParsedPerson :=
  let person0 : ParsedPerson :=
    ⟨(xrefOf record).getD [], [], none, none, [], [], [], []⟩
  match record.children with
  | none => person0
  | some cs => cs.foldl personFoldChild person0

/-- One switch case of GedcomParser.parseFamily's child walk
(`pointer ? pointer : child.value` for HUSB/WIFE, pointer-or-value for CHIL). -/
def familyFoldChild (family : ParsedFamily) (child : GNode) : ParsedFamily :=
  if child.type = ("HUSB".data) then
    { family with husband :=
        match pointerOf child with
        | some p => some p
        | none => child.value }
  else if child.type = ("WIFE".data) then
    { family with wife :=
        match pointerOf child with
        | some p => some p
        | none => child.value }
  else if child.type = ("CHIL".data) then
    match pointerOf child with
    | some p => { family with children := family.children ++ [p] }
    | none =>
      match child.value with
      | some v => if v = [] then family else { family with children := family.children ++ [v] }
      | none => family
  else family

/-- GedcomParser.parseFamily. -/
def parseFamily (record : GNode) : ParsedFamily :=
  let family0 : ParsedFamily := ⟨(xrefOf record).getD [], none, none, []⟩
  match record.children with
  | none => family0
  | some cs => cs.foldl familyFoldChild family0

/-- Character-set extraction from a HEAD record's nested CHAR child,
keeping the caller-supplied default when anything is missing or empty. -/
def headCharTag (children : List GNode) (encodingTag : Str) : Str :=
  match children.find? (fun r => decide (r.type = ("HEAD".data))) with
  | some head =>
    match head.children with
    | some hcs =>
      match hcs.find? (fun c => decide (c.type = ("CHAR".data))) with
      | some ch =>
        match ch.value with
        | some v => if v = [] then encodingTag else v
        | none => encodingTag
      | none => encodingTag
    | none => encodingTag
  | none => encodingTag

/-- GedcomParser.normalizeParseGedcomResult: reject a tree with no children
array, then project INDI/FAM records (with truthy xref_id) in source order. -/
def normalizeParseGedcomResult (tree : GNode) (encodingTag : Str) :
    Except Str ParseResult :=
  match tree.children with
  | none => Except.error ("Invalid GEDCOM structure".data)
  | some children =>
    let tag := headCharTag children encodingTag
    let persons := children.filterMap (fun r =>
      if r.type = ("INDI".data) ∧ (xrefOf r).isSome then some (parseIndividual r) else none)
    let families := children.filterMap (fun r =>
      if r.type = ("FAM".data) ∧ (xrefOf r).isSome then some (parseFamily r) else none)
    Except.ok ⟨⟨persons.length, families.length, tag⟩, persons, families⟩

/-- read-gedcom family reference (`ref.family`). -/
structure RGRef where
  family : Option Str

/-- read-gedcom name record (`{ given, surname }`). -/
structure RGName where
  given : Option Str
  surname : Option Str

/-- read-gedcom date record (`{ value }`). -/
structure RGDate where
  value : Option Str

/-- read-gedcom event record (`{ date }`). -/
structure RGEvent where
  date : Option RGDate

/-- read-gedcom individual object. -/
structure RGIndividual where
  name : Option (List RGName)
  birth : Option RGEvent
  death : Option RGEvent
  familyAsChild : Option (List RGRef)
  familyAsSpouse : Option (List RGRef)

/-- read-gedcom pointer holder (`{ pointer }`). -/
structure RGPointer where
  pointer : Option Str

/-- read-gedcom family object. -/
structure RGFamily where
  husband : Option RGPointer
  wife : Option RGPointer
  children : Option (List RGPointer)

/-- read-gedcom `head.characterSet`. -/
structure RGCharacterSet where
  value : Option Str

/-- read-gedcom `head`. -/
structure RGHead where
  characterSet : Option RGCharacterSet

/-- read-gedcom result object; `individuals`/`families` are
`Object.entries` associations in insertion order. -/
structure RGResult where
  head : Option RGHead
  individuals : Option (List (Str × RGIndividual))
  families : Option (List (Str × RGFamily))

/-- GedcomParser.parseReadGedcomIndividual. -/
def parseReadGedcomIndividual (id : Str) (ind : RGIndividual) : ParsedPerson :=
  let base : ParsedPerson := ⟨canonicalizeId id, [], none, none, [], [], [], []⟩
  let p1 :=
    match ind.name with
    | some (nr :: _) =>
      let rawName :=
        trimStr ((nr.given.getD []) ++ (" /".data) ++ (nr.surname.getD []) ++ ("/".data))
      let parsed := parseName rawName
      { base with
          name := parsed.fullName,
          firstName := parsed.firstName,
          lastName := parsed.lastName }
    | _ => base
  let p2 :=
    match ind.birth with
    | some ev =>
      match ev.date with
      | some d => { p1 with birthDate := d.value.getD [] }
      | none => p1
    | none => p1
  let p3 :=
    match ind.death with
    | some ev =>
      match ev.date with
      | some d => { p2 with deathDate := d.value.getD [] }
      | none => p2
    | none => p2
  let p4 :=
    match ind.familyAsChild with
    | some refs => { p3 with famc := refs.map (fun r => canonicalizeId (r.family.getD [])) }
    | none => p3
  match ind.familyAsSpouse with
  | some refs => { p4 with fams := refs.map (fun r => canonicalizeId (r.family.getD [])) }
  | none => p4

/-- GedcomParser.parseReadGedcomFamily. -/
def parseReadGedcomFamily (id : Str) (fam : RGFamily) : ParsedFamily :=
  let base : ParsedFamily := ⟨canonicalizeId id, none, none, []⟩
  let f1 :=
    match fam.husband with
    | some h => { base with husband := some (canonicalizeId (h.pointer.getD [])) }
    | none => base
  let f2 :=
    match fam.wife with
    | some w => { f1 with wife := some (canonicalizeId (w.pointer.getD [])) }
    | none => f1
  match fam.children with
  | some cs => { f2 with children := cs.map (fun c => canonicalizeId (c.pointer.getD [])) }
  | none => f2

/-- GedcomParser.normalizeReadGedcomResult. -/
def normalizeReadGedcomResult (result : RGResult) : ParseResult :=
  let encodingTag :=
    match result.head with
    | some h =>
      match h.characterSet with
      | some cs =>
        match cs.value with
        | some v => if v = [] then ("UTF-8".data) else v
        | none => ("UTF-8".data)
      | none => ("UTF-8".data)
    | none => ("UTF-8".data)
  let persons :=
    match result.individuals with
    | some entries => entries.map (fun e => parseReadGedcomIndividual e.1 e.2)
    | none => []
  let families :=
    match result.families with
    | some entries => entries.map (fun e => parseReadGedcomFamily e.1 e.2)
    | none => []
  ⟨⟨persons.length, families.length, encodingTag⟩, persons, families⟩

/-- `Failed to decode GEDCOM file: <e>`. -/
def decodeErrorMsg (e : Str) : Str :=
  ("Failed to decode GEDCOM file: ".data) ++ e

/-- `Failed to parse GEDCOM file with both parsers. Primary error: <e1>.
Fallback error: <e2>`. -/
def combinedErrorMsg (e1 e2 : Str) : Str :=
  ("Failed to parse GEDCOM file with both parsers. Primary error: ".data) ++ e1 ++
    (". Fallback error: ".data) ++ e2

/-- The primary try-block of parseGedcomWithFallback: run the external
parse-gedcom library on the decoded text, then the primary normalizer;
an exception from either is one primary failure. -/
def primaryAttempt (parseLib : Str → Except Str GNode) (text : Str) :
    Except Str ParseResult :=
  match parseLib text with
  | Except.error e => Except.error e
  | Except.ok tree => normalizeParseGedcomResult tree ("UTF-8".data)

/-- GedcomParser.parseGedcomWithFallback. The byte decoding step and the two
external parsing libraries (parse-gedcom on the decoded text, read-gedcom on
the original raw buffer) are oracle parameters, since each sits in its own
try/catch in the source; the orchestration itself is translated verbatim. -/
def parseGedcomWithFallback (decodeF : List Nat → Except Str Str)
    (parseLib : Str → Except Str GNode) (readLib : List Nat → Except Str RGResult)
    (buffer : List Nat) : Except Str ParseResult :=
  match decodeF buffer with
  | Except.error e => Except.error (decodeErrorMsg e)
  | Except.ok gedcomText =>
    match primaryAttempt parseLib gedcomText with
    | Except.ok r => Except.ok r
    | Except.error e1 =>
      match readLib buffer with
      | Except.ok g => Except.ok (normalizeReadGedcomResult g)
      | Except.error e2 => Except.error (combinedErrorMsg e1 e2)

/-- U+FFFD, emitted for malformed byte sequences. -/
def replacementChar : Nat := 0xFFFD

/-- UTF-8 continuation byte. -/
def contB (b : Nat) : Bool := decide (0x80 ≤ b ∧ b ≤ 0xBF)

/-- Constraint on the second byte of a three-byte UTF-8 sequence
(overlong and surrogate exclusion). -/
def valid3 (b b2 : Nat) : Prop := (b = 0xE0 → 0xA0 ≤ b2) ∧ (b = 0xED → b2 ≤ 0x9F)

instance (b b2 : Nat) : Decidable (valid3 b b2) := by unfold valid3; infer_instance

/-- Constraint on the second byte of a four-byte UTF-8 sequence
(overlong and out-of-range exclusion). -/
def valid4 (b b2 : Nat) : Prop := (b = 0xF0 → 0x90 ≤ b2) ∧ (b = 0xF4 → b2 ≤ 0x8F)

instance (b b2 : Nat) : Decidable (valid4 b b2) := by unfold valid4; infer_instance

/-- UTF-8 byte-sequence decoding to code points, replacement-character style
(Node's Buffer#toString never throws; ill-formed input yields U+FFFD). -/
def utf8DecodePoints : List Nat → List Nat
  | [] => []
  | b :: rest =>
    if b < 0x80 then b :: utf8DecodePoints rest
    else if 0xC2 ≤ b ∧ b ≤ 0xDF then
      match rest with
      | b2 :: rest2 =>
        if contB b2 then ((b - 0xC0) * 0x40 + (b2 - 0x80)) :: utf8DecodePoints rest2
        else replacementChar :: utf8DecodePoints (b2 :: rest2)
      | [] => [replacementChar]
    else if 0xE0 ≤ b ∧ b ≤ 0xEF then
      match rest with
      | b2 :: b3 :: rest3 =>
        if contB b2 && contB b3 && decide (valid3 b b2) then
          ((b - 0xE0) * 0x1000 + (b2 - 0x80) * 0x40 + (b3 - 0x80)) :: utf8DecodePoints rest3
        else replacementChar :: utf8DecodePoints (b2 :: b3 :: rest3)
      | other => replacementChar :: utf8DecodePoints other
    else if 0xF0 ≤ b ∧ b ≤ 0xF4 then
      match rest with
      | b2 :: b3 :: b4 :: rest4 =>
        if contB b2 && contB b3 && contB b4 && decide (valid4 b b2) then
          ((b - 0xF0) * 0x40000 + (b2 - 0x80) * 0x1000 + (b3 - 0x80) * 0x40 + (b4 - 0x80)) ::
            utf8DecodePoints rest4
        else replacementChar :: utf8DecodePoints (b2 :: b3 :: b4 :: rest4)
      | other => replacementChar :: utf8DecodePoints other
    else replacementChar :: utf8DecodePoints rest

/-- `buffer.toString('utf8')`. -/
def utf8Decode (bytes : List Nat) : Str := (utf8DecodePoints bytes).map Char.ofNat

/-- UTF-16 little-endian code units from a byte list (an odd trailing byte
is dropped, as Node does). -/
def utf16leUnits : List Nat → List Nat
  | b1 :: b2 :: rest => (b1 + 0x100 * b2) :: utf16leUnits rest
  | _ => []

/-- Combine UTF-16 code units into code points (lone surrogates become
the replacement character). -/
def utf16leCombine : List Nat → List Nat
  | [] => []
  | u :: rest =>
    if 0xD800 ≤ u ∧ u ≤ 0xDBFF then
      match rest with
      | u2 :: rest2 =>
        if 0xDC00 ≤ u2 ∧ u2 ≤ 0xDFFF then
          (0x10000 + (u - 0xD800) * 0x400 + (u2 - 0xDC00)) :: utf16leCombine rest2
        else replacementChar :: utf16leCombine (u2 :: rest2)
      | [] => [replacementChar]
    else if 0xDC00 ≤ u ∧ u ≤ 0xDFFF then replacementChar :: utf16leCombine rest
    else u :: utf16leCombine rest

/-- `buffer.toString('utf16le')`. -/
def utf16leDecode (bytes : List Nat) : Str :=
  (utf16leCombine (utf16leUnits bytes)).map Char.ofNat

/-- Well-formed UTF-8 byte sequence (RFC 3629 table: ASCII, two-byte
C2-DF, three-byte E0-EF with the E0/ED second-byte restrictions, four-byte
F0-F4 with the F0/F4 second-byte restrictions, continuation bytes 80-BF). -/
inductive ValidUtf8 : List Nat → Prop where
  | nil : ValidUtf8 []
  | one {b rest} : b < 0x80 → ValidUtf8 rest → ValidUtf8 (b :: rest)
  | two {b b2 rest} : 0xC2 ≤ b → b ≤ 0xDF → contB b2 = true → ValidUtf8 rest →
      ValidUtf8 (b :: b2 :: rest)
  | three {b b2 b3 rest} : 0xE0 ≤ b → b ≤ 0xEF → contB b2 = true → contB b3 = true →
      valid3 b b2 → ValidUtf8 rest → ValidUtf8 (b :: b2 :: b3 :: rest)
  | four {b b2 b3 b4 rest} : 0xF0 ≤ b → b ≤ 0xF4 → contB b2 = true → contB b3 = true →
      contB b4 = true → valid4 b b2 → ValidUtf8 rest →
      ValidUtf8 (b :: b2 :: b3 :: b4 :: rest)

/-- GedcomParser.detectAndDecodeGedcom: byte-order-mark sniffing with index
and length checks exactly as in the source (both UTF-16 marks route to the
little-endian decode). -/
def detectAndDecodeGedcom (buffer : List Nat) : Str :=
  if 3 ≤ buffer.length ∧ buffer.getD 0 0 = 0xEF ∧ buffer.getD 1 0 = 0xBB ∧
      buffer.getD 2 0 = 0xBF then
    utf8Decode (buffer.drop 3)
  else if 2 ≤ buffer.length ∧ buffer.getD 0 0 = 0xFF ∧ buffer.getD 1 0 = 0xFE then
    utf16leDecode (buffer.drop 2)
  else if 2 ≤ buffer.length ∧ buffer.getD 0 0 = 0xFE ∧ buffer.getD 1 0 = 0xFF then
    utf16leDecode (buffer.drop 2)
  else utf8Decode buffer

/-- Reference definition of the encoding detector, following the claim text:
fixed-length prefix checks in order (UTF-8 mark strips 3 bytes, either
UTF-16 mark strips 2 and decodes little-endian, otherwise whole-buffer
UTF-8). -/
def detectAndDecodeSpec (buffer : List Nat) : Str :=
  if List.isPrefixOf [0xEF, 0xBB, 0xBF] buffer = true then utf8Decode (buffer.drop 3)
  else if List.isPrefixOf [0xFF, 0xFE] buffer = true then utf16leDecode (buffer.drop 2)
  else if List.isPrefixOf [0xFE, 0xFF] buffer = true then utf16leDecode (buffer.drop 2)
  else utf8Decode buffer

/-- Sample person builder (only identifiers and family links matter for the
traversal engine). -/
def mkPerson (id : Str) (famc fams : List Str) : ParsedPerson :=
  ⟨id, [], none, none, [], [], famc, fams⟩

def personI1 : ParsedPerson := mkPerson ("@I1@".data) [] [("@F1@".data)]

def personI2 : ParsedPerson := mkPerson ("@I2@".data) [] [("@F1@".data)]

def personI3 : ParsedPerson := mkPerson ("@I3@".data) [("@F1@".data)] []

def familyF1 : ParsedFamily :=
  ⟨"@F1@".data, some ("@I1@".data), some ("@I2@".data), [("@I3@".data)]⟩

/-- The spec section 8 end-to-end dataset: I1 husband, I2 wife, child I3. -/
def samplePR : ParseResult :=
  ⟨⟨3, 1, ("UTF-8".data)⟩, [personI1, personI2, personI3], [familyF1]⟩

/-- Expected ancestors of I3 (3 generations requested, 2 produced). -/
def sampleAnc : AncestryResult :=
  ⟨"@I3@".data,
    [[("@I3@".data)], [("@I1@".data), ("@I2@".data)]],
    [personI3, personI1, personI2],
    [⟨"@I1@".data, "@I3@".data, Relation.father⟩,
      ⟨"@I2@".data, "@I3@".data, Relation.mother⟩]⟩

/-- Expected descendants of I3 (a leaf: one generation, no edges). -/
def sampleDescI3 : AncestryResult :=
  ⟨"@I3@".data, [[("@I3@".data)]], [personI3], []⟩

/-- C2 counterexample dataset: the root's parent family names a husband
`@X@` for which no person record exists. -/
def cexPerson : ParsedPerson := mkPerson ("@I1@".data) [("@F1@".data)] []

def cexPR : ParseResult :=
  ⟨⟨1, 1, ("UTF-8".data)⟩, [cexPerson],
    [⟨"@F1@".data, some ("@X@".data), none, []⟩]⟩

/-- What computeAncestors returns on the counterexample dataset: `@X@` is
visited and recorded in the generations, but dropped from `nodes`. -/
def cexAnc : AncestryResult :=
  ⟨"@I1@".data,
    [[("@I1@".data)], [("@X@".data)]],
    [cexPerson],
    [⟨"@X@".data, "@I1@".data, Relation.father⟩]⟩

/-- Concrete oracles for the orchestrator instantiations. -/
def decodeOkEmpty : List Nat → Except Str Str := fun _ => Except.ok []

def decodeFailBad : List Nat → Except Str Str := fun _ => Except.error ("bad".data)

def parseLibEmptyTree : Str → Except Str GNode :=
  fun _ => Except.ok (GNode.mk [] none none (some []))

def readLibFail : List Nat → Except Str RGResult := fun _ => Except.error []

def emptyParseResult : ParseResult := ⟨⟨0, 0, ("UTF-8".data)⟩, [], []⟩

/-- Concrete data for the descendant-relation witness: the traversing person
is the family's wife, so the recorded edge must say mother. -/
def personW : ParsedPerson := mkPerson ("@W@".data) [] [("@F1@".data)]

def familyW : ParsedFamily :=
  ⟨"@F1@".data, some ("@H@".data), some ("@W@".data), [("@C@".data)]⟩

def edgeWC : AncEdge := ⟨"@W@".data, "@C@".data, Relation.mother⟩

/-- One traversal step extends the (next, visited, edges) triple: the same
fresh identifiers are appended to both `next` and `visited`, one edge is
recorded per fresh identifier, and `visited` stays duplicate-free. -/
def TripleExtends (nev nev2 : Triple) : Prop :=
  ∃ d, nev2.1 = nev.1 ++ d ∧ nev2.2.1 = nev.2.1 ++ d ∧
    nev2.2.2.length = nev.2.2.length + d.length ∧
    (nev.2.1.Nodup → nev2.2.1.Nodup)

theorem wrap_isPrefixOf (l : Str) : List.isPrefixOf ['@'] ('@' :: l) = true := by
  simp [List.isPrefixOf]

theorem wrap_isSuffixOf (l : Str) : List.isSuffixOf ['@'] (l ++ ['@']) = true := by
  simp [List.isSuffixOf, List.IsSuffix, List.suffix_append]

theorem canonicalizeId_idem (x : Str) :
    canonicalizeId (canonicalizeId x) = canonicalizeId x := by
  by_cases h1 : x = []
  · subst h1; rfl
  · by_cases h2 : List.isPrefixOf ['@'] x = true ∧ List.isSuffixOf ['@'] x = true
    · have hx : canonicalizeId x = x := by rw [canonicalizeId, if_neg h1, if_pos h2]
      rw [hx]
      exact hx
    · have hx : canonicalizeId x = '@' :: (x ++ ['@']) := by
        rw [canonicalizeId, if_neg h1, if_neg h2]
      have hne : ('@' :: (x ++ ['@'])) ≠ ([] : Str) := by simp
      have hp : List.isPrefixOf ['@'] ('@' :: (x ++ ['@'])) = true := wrap_isPrefixOf _
      have hs : List.isSuffixOf ['@'] ('@' :: (x ++ ['@'])) = true :=
        wrap_isSuffixOf ('@' :: x)
      rw [hx, canonicalizeId, if_neg hne, if_pos ⟨hp, hs⟩]

theorem tripleExtends_refl (nev : Triple) : TripleExtends nev nev :=
  ⟨[], by simp, by simp, by simp, fun h => h⟩

theorem tripleExtends_trans {a b c : Triple} (h1 : TripleExtends a b)
    (h2 : TripleExtends b c) : TripleExtends a c := by
  obtain ⟨d1, p1, q1, r1, n1⟩ := h1
  obtain ⟨d2, p2, q2, r2, n2⟩ := h2
  refine ⟨d1 ++ d2, ?_, ?_, ?_, fun h => n2 (n1 h)⟩
  · rw [p2, p1, List.append_assoc]
  · rw [q2, q1, List.append_assoc]
  · rw [r2, r1, List.length_append]
    omega

theorem tripleExtends_push (nev : Triple) (x : Str) (e : AncEdge)
    (hx : x ∉ nev.2.1) :
    TripleExtends nev (nev.1 ++ [x], nev.2.1 ++ [x], nev.2.2 ++ [e]) := by
  refine ⟨[x], rfl, rfl, by simp, fun hn => ?_⟩
  rw [List.nodup_append]
  refine ⟨hn, by simp, ?_⟩
  intro a ha hb
  rw [List.mem_singleton] at hb
  exact hx (hb ▸ ha)

theorem tripleExtends_tryDiscover (parentOpt : Option Str) (childId : Str)
    (rel : Relation) (nev : Triple) :
    TripleExtends nev (tryDiscover parentOpt childId rel nev) := by
  unfold tryDiscover
  cases parentOpt with
  | none => exact tripleExtends_refl nev
  | some h =>
    dsimp only
    split_ifs with hc
    · exact tripleExtends_push nev h ⟨h, childId, rel⟩ hc.2
    · exact tripleExtends_refl nev

theorem tripleExtends_ancFamilies (fm : Str → Option ParsedFamily) (personId : Str)
    (l : List Str) : ∀ nev : Triple, TripleExtends nev (ancFamilies fm personId l nev) := by
  induction l with
  | nil => intro nev; exact tripleExtends_refl nev
  | cons famId rest ih =>
    intro nev
    rw [ancFamilies]
    cases hf : fm famId with
    | none => exact ih nev
    | some family =>
      exact tripleExtends_trans
        (tripleExtends_trans
          (tripleExtends_tryDiscover family.husband personId Relation.father nev)
          (tripleExtends_tryDiscover family.wife personId Relation.mother _))
        (ih _)

theorem tripleExtends_ancGeneration (pm : Str → Option ParsedPerson)
    (fm : Str → Option ParsedFamily) (l : List Str) :
    ∀ nev : Triple, TripleExtends nev (ancGeneration pm fm l nev) := by
  induction l with
  | nil => intro nev; exact tripleExtends_refl nev
  | cons personId rest ih =>
    intro nev
    rw [ancGeneration]
    cases hp : pm personId with
    | none => exact ih nev
    | some person =>
      exact tripleExtends_trans (tripleExtends_ancFamilies fm personId person.famc nev) (ih _)

theorem tripleExtends_descChildren (person : ParsedPerson) (personId : Str)
    (family : ParsedFamily) (l : List Str) :
    ∀ nev : Triple, TripleExtends nev (descChildren person personId family l nev) := by
  induction l with
  | nil => intro nev; exact tripleExtends_refl nev
  | cons childId rest ih =>
    intro nev
    rw [descChildren]
    by_cases hc : childId ∈ nev.2.1
    · rw [if_neg (not_not_intro hc)]
      exact ih nev
    · rw [if_pos hc]
      exact tripleExtends_trans
        (tripleExtends_push nev childId
          ⟨personId, childId,
            if family.husband = some person.id then Relation.father else Relation.mother⟩ hc)
        (ih _)

theorem tripleExtends_descFamilies (fm : Str → Option ParsedFamily)
    (person : ParsedPerson) (personId : Str) (l : List Str) :
    ∀ nev : Triple, TripleExtends nev (descFamilies fm person personId l nev) := by
  induction l with
  | nil => intro nev; exact tripleExtends_refl nev
  | cons famId rest ih =>
    intro nev
    rw [descFamilies]
    cases hf : fm famId with
    | none => exact ih nev
    | some family =>
      exact tripleExtends_trans
        (tripleExtends_descChildren person personId family family.children nev) (ih _)

theorem tripleExtends_descGeneration (pm : Str → Option ParsedPerson)
    (fm : Str → Option ParsedFamily) (l : List Str) :
    ∀ nev : Triple, TripleExtends nev (descGeneration pm fm l nev) := by
  induction l with
  | nil => intro nev; exact tripleExtends_refl nev
  | cons personId rest ih =>
    intro nev
    rw [descGeneration]
    cases hp : pm personId with
    | none => exact ih nev
    | some person =>
      exact tripleExtends_trans
        (tripleExtends_descFamilies fm person personId person.fams nev) (ih _)

theorem lookupPerson_id {persons : List ParsedPerson} {id : Str} {p : ParsedPerson}
    (h : lookupPerson persons id = some p) : p.id = id := by
  unfold lookupPerson at h
  have h2 := List.find?_some h
  simpa using h2

/-- Invariant of the generation loop: the visited list is exactly the
recorded generations followed by the pending generation, it is
duplicate-free, and it is one longer than the edge list. -/
theorem travLoop_inv (expand : List Str → Triple → Triple)
    (hE : ∀ gen nev, TripleExtends nev (expand gen nev)) :
    ∀ (fuel : Nat) (st : TravState),
      st.visited = st.generations.flatten ++ st.current →
      st.visited.Nodup →
      st.visited.length = st.edges.length + 1 →
      ((travLoop expand fuel st).visited =
          (travLoop expand fuel st).generations.flatten ++ (travLoop expand fuel st).current ∧
        (travLoop expand fuel st).visited.Nodup ∧
        (travLoop expand fuel st).visited.length = (travLoop expand fuel st).edges.length + 1) := by
  intro fuel
  induction fuel with
  | zero =>
    intro st h1 h2 h3
    exact ⟨h1, h2, h3⟩
  | succ n ih =>
    intro st h1 h2 h3
    rw [travLoop]
    by_cases hc : st.current = []
    · rw [if_pos hc]
      exact ⟨h1, h2, h3⟩
    · rw [if_neg hc]
      obtain ⟨d, p1, q1, r1, n1⟩ := hE st.current ([], st.visited, st.edges)
      apply ih
      · show (expand st.current ([], st.visited, st.edges)).2.1 =
          (st.generations ++ [st.current]).flatten ++ (expand st.current ([], st.visited, st.edges)).1
        rw [q1, p1, h1]
        simp
      · exact n1 h2
      · show (expand st.current ([], st.visited, st.edges)).2.1.length =
          (expand st.current ([], st.visited, st.edges)).2.2.length + 1
        rw [q1, r1, List.length_append]
        simp only []
        omega

/-- The loop records at most `fuel` further generations and never records
an empty one. -/
theorem travLoop_gens (expand : List Str → Triple → Triple) :
    ∀ (fuel : Nat) (st : TravState),
      (travLoop expand fuel st).generations.length ≤ st.generations.length + fuel ∧
      ((∀ g ∈ st.generations, g ≠ []) →
        ∀ g ∈ (travLoop expand fuel st).generations, g ≠ []) := by
  intro fuel
  induction fuel with
  | zero =>
    intro st
    exact ⟨Nat.le_add_right _ _, fun h => h⟩
  | succ n ih =>
    intro st
    rw [travLoop]
    by_cases hc : st.current = []
    · rw [if_pos hc]
      exact ⟨by omega, fun h => h⟩
    · rw [if_neg hc]
      obtain ⟨hlen, hne⟩ := ih ⟨st.generations ++ [st.current],
        (expand st.current ([], st.visited, st.edges)).2.1,
        (expand st.current ([], st.visited, st.edges)).2.2,
        (expand st.current ([], st.visited, st.edges)).1⟩
      constructor
      · refine le_trans hlen ?_
        simp only [List.length_append, List.length_singleton]
        omega
      · intro h
        apply hne
        intro g hg
        rw [List.mem_append] at hg
        rcases hg with hg | hg
        · exact h g hg
        · rw [List.mem_singleton] at hg
          exact hg ▸ hc

theorem computeAncestors_ok {pr : ParseResult} {rootId : Str} {mg : Nat}
    {r : AncestryResult} (h : computeAncestors pr rootId mg = Except.ok r) :
    r = ⟨canonicalizeId rootId, (ancFinalState pr rootId mg).generations,
      (ancFinalState pr rootId mg).visited.filterMap (lookupPerson pr.persons),
      (ancFinalState pr rootId mg).edges⟩ := by
  unfold computeAncestors at h
  cases hl : lookupPerson pr.persons (canonicalizeId rootId) with
  | none => rw [hl] at h; exact Except.noConfusion h
  | some p =>
    rw [hl] at h
    injection h with h2
    exact h2.symm

theorem computeDescendants_ok {pr : ParseResult} {rootId : Str} {mg : Nat}
    {r : AncestryResult} (h : computeDescendants pr rootId mg = Except.ok r) :
    r = ⟨canonicalizeId rootId, (descFinalState pr rootId mg).generations,
      (descFinalState pr rootId mg).visited.filterMap (lookupPerson pr.persons),
      (descFinalState pr rootId mg).edges⟩ := by
  unfold computeDescendants at h
  cases hl : lookupPerson pr.persons (canonicalizeId rootId) with
  | none => rw [hl] at h; exact Except.noConfusion h
  | some p =>
    rw [hl] at h
    injection h with h2
    exact h2.symm

theorem ancFinalState_inv (pr : ParseResult) (rootId : Str) (mg : Nat) :
    (ancFinalState pr rootId mg).visited =
        (ancFinalState pr rootId mg).generations.flatten ++ (ancFinalState pr rootId mg).current ∧
      (ancFinalState pr rootId mg).visited.Nodup ∧
      (ancFinalState pr rootId mg).visited.length = (ancFinalState pr rootId mg).edges.length + 1 :=
  travLoop_inv _ (fun gen nev => tripleExtends_ancGeneration _ _ gen nev) mg _
    (by simp) (by simp) rfl

theorem descFinalState_inv (pr : ParseResult) (rootId : Str) (mg : Nat) :
    (descFinalState pr rootId mg).visited =
        (descFinalState pr rootId mg).generations.flatten ++ (descFinalState pr rootId mg).current ∧
      (descFinalState pr rootId mg).visited.Nodup ∧
      (descFinalState pr rootId mg).visited.length = (descFinalState pr rootId mg).edges.length + 1 :=
  travLoop_inv _ (fun gen nev => tripleExtends_descGeneration _ _ gen nev) mg _
    (by simp) (by simp) rfl

/-- Claim C3: for a ParseResult containing the canonicalized root and
maxGenerations at least 1, computeAncestors records exactly one edge per
identifier discovered beyond the root (edge count + 1 = visited count),
every edge relation is father or mother, and no identifier occurs twice
across the recorded generations (so a path reaching an already-visited
identifier adds no edge). -/
theorem anc_one_edge_per_discovery (pr : ParseResult) (rootId : Str) (mg : Nat)
    (r : AncestryResult) (hmg : 1 ≤ mg)
    (h : computeAncestors pr rootId mg = Except.ok r) :
    r.edges.length + 1 = (ancFinalState pr rootId mg).visited.length ∧
    (∀ e ∈ r.edges, e.relation = Relation.father ∨ e.relation = Relation.mother) ∧
    r.generations.flatten.Nodup := by
  have hr := computeAncestors_ok h
  obtain ⟨i1, i2, i3⟩ := ancFinalState_inv pr rootId mg
  subst hr
  refine ⟨by dsimp only; omega, ?_, ?_⟩
  · intro e _
    cases hrel : e.relation
    · exact Or.inl rfl
    · exact Or.inr rfl
  · dsimp only
    rw [i1] at i2
    exact List.Nodup.of_append_left i2

/-- Witness for C3 on the spec section 8 dataset. -/
theorem anc_one_edge_per_discovery_witness :
    sampleAnc.edges.length + 1 = (ancFinalState samplePR ("I3".data) 3).visited.length :=
  (anc_one_edge_per_discovery samplePR ("I3".data) 3 sampleAnc (by decide) (by decide)).1

/-- Claim C2 is false on the code: a visited identifier with no Person
record (here the dangling husband `@X@`) appears in the generations but is
filtered out of `nodes`. -/
theorem anc_nodes_counterexample :
    computeAncestors cexPR ("@I1@".data) 2 = Except.ok cexAnc ∧
    ("@X@".data) ∈ cexAnc.generations.flatten ∧
    ("@X@".data) ∉ cexAnc.nodes.map (fun p => p.id) := by
  exact ⟨by decide, by decide, by decide⟩

/-- Claim C2 (amended): nodes contains the Person record of every visited
identifier that has one in the person map (with matching id), and every
identifier recorded in generations is visited; visited identifiers without
a Person record are dropped from nodes. Holds for computeAncestors and
computeDescendants alike. -/
theorem anc_desc_nodes_of_visited (pr : ParseResult) (rootId : Str) (mg : Nat)
    (rA rD : AncestryResult)
    (hA : computeAncestors pr rootId mg = Except.ok rA)
    (hD : computeDescendants pr rootId mg = Except.ok rD) :
    (∀ id p, id ∈ (ancFinalState pr rootId mg).visited →
      lookupPerson pr.persons id = some p → p ∈ rA.nodes ∧ p.id = id) ∧
    (∀ id, id ∈ rA.generations.flatten → id ∈ (ancFinalState pr rootId mg).visited) ∧
    (∀ id p, id ∈ (descFinalState pr rootId mg).visited →
      lookupPerson pr.persons id = some p → p ∈ rD.nodes ∧ p.id = id) ∧
    (∀ id, id ∈ rD.generations.flatten → id ∈ (descFinalState pr rootId mg).visited) := by
  have hra := computeAncestors_ok hA
  have hrd := computeDescendants_ok hD
  obtain ⟨iA, _, _⟩ := ancFinalState_inv pr rootId mg
  obtain ⟨iD, _, _⟩ := descFinalState_inv pr rootId mg
  subst hra
  subst hrd
  refine ⟨?_, ?_, ?_, ?_⟩
  · intro id p hid hp
    exact ⟨List.mem_filterMap.mpr ⟨id, hid, hp⟩, lookupPerson_id hp⟩
  · intro id hid
    rw [iA]
    exact List.mem_append_left _ hid
  · intro id p hid hp
    exact ⟨List.mem_filterMap.mpr ⟨id, hid, hp⟩, lookupPerson_id hp⟩
  · intro id hid
    rw [iD]
    exact List.mem_append_left _ hid

/-- Witness for the amended C2 on the spec section 8 dataset. -/
theorem anc_desc_nodes_of_visited_witness :
    personI3 ∈ sampleAnc.nodes ∧ personI3.id = ("@I3@".data) :=
  (anc_desc_nodes_of_visited samplePR ("I3".data) 3 sampleAnc sampleDescI3
    (by decide) (by decide)).1 ("@I3@".data) personI3 (by decide) (by decide)

/-- Claim C7: with the root present and maxGenerations = N at least 1, both
traversals record at most N generations, every recorded generation is
non-empty, and a terminal empty generation is never appended. -/
theorem generations_bounded (pr : ParseResult) (rootId : Str) (N : Nat)
    (rA rD : AncestryResult) (hN : 1 ≤ N)
    (hA : computeAncestors pr rootId N = Except.ok rA)
    (hD : computeDescendants pr rootId N = Except.ok rD) :
    rA.generations.length ≤ N ∧ (∀ g ∈ rA.generations, g ≠ []) ∧
    rD.generations.length ≤ N ∧ (∀ g ∈ rD.generations, g ≠ []) := by
  have hra := computeAncestors_ok hA
  have hrd := computeDescendants_ok hD
  subst hra
  subst hrd
  obtain ⟨lA, neA⟩ := travLoop_gens
    (ancGeneration (lookupPerson pr.persons) (lookupFamily pr.families)) N
    ⟨[], [canonicalizeId rootId], [], [canonicalizeId rootId]⟩
  obtain ⟨lD, neD⟩ := travLoop_gens
    (descGeneration (lookupPerson pr.persons) (lookupFamily pr.families)) N
    ⟨[], [canonicalizeId rootId], [], [canonicalizeId rootId]⟩
  refine ⟨?_, ?_, ?_, ?_⟩
  · simpa [ancFinalState] using lA
  · intro g hg
    exact neA (by simp) g (by simpa [ancFinalState] using hg)
  · simpa [descFinalState] using lD
  · intro g hg
    exact neD (by simp) g (by simpa [descFinalState] using hg)

/-- Witness for C7 on the spec section 8 dataset. -/
theorem generations_bounded_witness : sampleAnc.generations.length ≤ 3 :=
  (generations_bounded samplePR ("I3".data) 3 sampleAnc sampleDescI3
    (by decide) (by decide) (by decide)).1

/-- Claim C6: in computeDescendants' child walk, a newly recorded edge's
relation is father exactly when the traversing person's id equals
the family's husband field; any other traversing person (wife included)
yields mother. -/
theorem desc_relation_father_iff (person : ParsedPerson) (personId : Str)
    (family : ParsedFamily) (childIds : List Str) :
    ∀ (nev : Triple) (e : AncEdge),
      e ∈ (descChildren person personId family childIds nev).2.2 →
      e ∈ nev.2.2 ∨ (e.relation = Relation.father ↔ family.husband = some person.id) := by
  induction childIds with
  | nil =>
    intro nev e he
    exact Or.inl he
  | cons childId rest ih =>
    intro nev e he
    rw [descChildren] at he
    by_cases hc : childId ∈ nev.2.1
    · rw [if_neg (not_not_intro hc)] at he
      exact ih nev e he
    · rw [if_pos hc] at he
      rcases ih _ e he with hin | hp
      · rw [List.mem_append] at hin
        rcases hin with h1 | h1
        · exact Or.inl h1
        · rw [List.mem_singleton] at h1
          subst h1
          right
          dsimp only
          split_ifs with hh
          · simp [hh]
          · simp [hh]
      · exact Or.inr hp

/-- Witness for C6: a wife traversing her family records a mother edge. -/
theorem desc_relation_father_iff_witness :
    edgeWC ∈ ([] : List AncEdge) ∨
      (edgeWC.relation = Relation.father ↔ familyW.husband = some personW.id) :=
  desc_relation_father_iff personW ("@W@".data) familyW [("@C@".data)]
    ([], [("@W@".data)], []) edgeWC (by decide)

/-- Claim C10: traversal never fails except for a missing root (the ok
outcome is equivalent to the canonicalized root having a Person record),
and a dangling family id or a generation member without a Person record is
skipped leaving the state of that step untouched. -/
theorem traversal_totality :
    (∀ (pr : ParseResult) (rootId : Str) (mg : Nat),
      ((∃ r, computeAncestors pr rootId mg = Except.ok r) ↔
        lookupPerson pr.persons (canonicalizeId rootId) ≠ none) ∧
      ((∃ r, computeDescendants pr rootId mg = Except.ok r) ↔
        lookupPerson pr.persons (canonicalizeId rootId) ≠ none)) ∧
    (∀ (pm : Str → Option ParsedPerson) (fm : Str → Option ParsedFamily)
        (pid : Str) (rest : List Str) (nev : Triple), pm pid = none →
      ancGeneration pm fm (pid :: rest) nev = ancGeneration pm fm rest nev) ∧
    (∀ (fm : Str → Option ParsedFamily) (pid fid : Str) (rest : List Str) (nev : Triple),
      fm fid = none →
      ancFamilies fm pid (fid :: rest) nev = ancFamilies fm pid rest nev) ∧
    (∀ (pm : Str → Option ParsedPerson) (fm : Str → Option ParsedFamily)
        (pid : Str) (rest : List Str) (nev : Triple), pm pid = none →
      descGeneration pm fm (pid :: rest) nev = descGeneration pm fm rest nev) ∧
    (∀ (fm : Str → Option ParsedFamily) (person : ParsedPerson) (pid fid : Str)
        (rest : List Str) (nev : Triple), fm fid = none →
      descFamilies fm person pid (fid :: rest) nev = descFamilies fm person pid rest nev) := by
  refine ⟨?_, ?_, ?_, ?_, ?_⟩
  · intro pr rootId mg
    constructor
    · constructor
      · rintro ⟨r, hr⟩ hl
        unfold computeAncestors at hr
        rw [hl] at hr
        exact Except.noConfusion hr
      · intro hl
        unfold computeAncestors
        cases hx : lookupPerson pr.persons (canonicalizeId rootId) with
        | none => exact absurd hx hl
        | some p => exact ⟨_, rfl⟩
    · constructor
      · rintro ⟨r, hr⟩ hl
        unfold computeDescendants at hr
        rw [hl] at hr
        exact Except.noConfusion hr
      · intro hl
        unfold computeDescendants
        cases hx : lookupPerson pr.persons (canonicalizeId rootId) with
        | none => exact absurd hx hl
        | some p => exact ⟨_, rfl⟩
  · intro pm fm pid rest nev h
    rw [ancGeneration, h]
  · intro fm pid fid rest nev h
    rw [ancFamilies, h]
  · intro pm fm pid rest nev h
    rw [descGeneration, h]
  · intro fm person pid fid rest nev h
    rw [descFamilies, h]

/-- Witness for C10: a generation member without a Person record changes
nothing. -/
theorem traversal_totality_witness :
    ancGeneration (fun _ => none) (fun _ => none) (("@A@".data) :: []) ([], [], []) =
      ancGeneration (fun _ => none) (fun _ => none) [] ([], [], []) :=
  traversal_totality.2.1 (fun _ => none) (fun _ => none) ("@A@".data) [] ([], [], []) rfl

/-- Claim C8: canonicalizeId is idempotent; a string starting and ending
with the at sign is returned unchanged, any other non-empty string is
wrapped in at signs (so I5 and its wrapped form agree), and the empty
string maps to the empty string. -/
theorem canonicalizeId_spec :
    (∀ x : Str, canonicalizeId (canonicalizeId x) = canonicalizeId x) ∧
    (∀ x : Str, List.isPrefixOf ['@'] x = true → List.isSuffixOf ['@'] x = true →
      canonicalizeId x = x) ∧
    (∀ s : Str, s ≠ [] →
      ¬(List.isPrefixOf ['@'] s = true ∧ List.isSuffixOf ['@'] s = true) →
      canonicalizeId s = '@' :: (s ++ ['@'])) ∧
    canonicalizeId ("I5".data) = ("@I5@".data) ∧
    canonicalizeId ("@I5@".data) = ("@I5@".data) ∧
    canonicalizeId [] = [] := by
  refine ⟨canonicalizeId_idem, ?_, ?_, by decide, by decide, rfl⟩
  · intro x hp hs
    have hne : x ≠ [] := by
      intro h
      subst h
      simp [List.isPrefixOf] at hp
    rw [canonicalizeId, if_neg hne, if_pos ⟨hp, hs⟩]
  · intro s hne hnot
    rw [canonicalizeId, if_neg hne, if_neg hnot]

/-- Witness for C8 at concrete identifiers. -/
theorem canonicalizeId_spec_witness :
    canonicalizeId ("@I5@".data) = ("@I5@".data) ∧
    canonicalizeId ("X".data) = '@' :: (("X".data) ++ ['@']) :=
  ⟨canonicalizeId_spec.2.1 ("@I5@".data) (by decide) (by decide),
    canonicalizeId_spec.2.2.1 ("X".data) (by decide) (by decide)⟩

theorem normalizeParseGedcomResult_counts {tree : GNode} {tag : Str} {r : ParseResult}
    (h : normalizeParseGedcomResult tree tag = Except.ok r) :
    r.meta.individuals = r.persons.length ∧ r.meta.families = r.families.length := by
  unfold normalizeParseGedcomResult at h
  cases hc : tree.children with
  | none => rw [hc] at h; exact Except.noConfusion h
  | some cs =>
    rw [hc] at h
    injection h with h2
    subst h2
    exact ⟨rfl, rfl⟩

theorem normalizeReadGedcomResult_counts (g : RGResult) :
    (normalizeReadGedcomResult g).meta.individuals = (normalizeReadGedcomResult g).persons.length ∧
    (normalizeReadGedcomResult g).meta.families = (normalizeReadGedcomResult g).families.length := by
  unfold normalizeReadGedcomResult
  exact ⟨rfl, rfl⟩

/-- Claim C1: whatever path parseGedcomWithFallback takes (primary
record-tree normalizer or fallback object-graph normalizer), a returned
ParseResult has meta.individuals equal to the persons count and
meta.families equal to the families count. -/
theorem parse_meta_counts (decodeF : List Nat → Except Str Str)
    (parseLib : Str → Except Str GNode) (readLib : List Nat → Except Str RGResult)
    (buffer : List Nat) (r : ParseResult)
    (h : parseGedcomWithFallback decodeF parseLib readLib buffer = Except.ok r) :
    r.meta.individuals = r.persons.length ∧ r.meta.families = r.families.length := by
  unfold parseGedcomWithFallback at h
  cases hd : decodeF buffer with
  | error e => rw [hd] at h; exact Except.noConfusion h
  | ok text =>
    rw [hd] at h
    dsimp only at h
    cases hp : primaryAttempt parseLib text with
    | ok r2 =>
      rw [hp] at h
      injection h with h2
      subst h2
      unfold primaryAttempt at hp
      cases hq : parseLib text with
      | error e => rw [hq] at hp; exact Except.noConfusion hp
      | ok tree =>
        rw [hq] at hp
        exact normalizeParseGedcomResult_counts hp
    | error e1 =>
      rw [hp] at h
      cases hg : readLib buffer with
      | error e2 => rw [hg] at h; exact Except.noConfusion h
      | ok g =>
        rw [hg] at h
        injection h with h2
        subst h2
        exact normalizeReadGedcomResult_counts g


/-- Witness for C1: an empty record tree through the primary path. -/
theorem parse_meta_counts_witness :
    emptyParseResult.meta.individuals = emptyParseResult.persons.length ∧
    emptyParseResult.meta.families = emptyParseResult.families.length :=
  parse_meta_counts decodeOkEmpty parseLibEmptyTree readLibFail [] emptyParseResult
    (by decide)

/-- Claim C4: the orchestrator fails with the decode error and attempts no
fallback when decoding fails; after a primary failure it runs the fallback
on the original raw buffer and returns its normalization when it succeeds;
when both fail it reports the single combined error naming both messages;
and every ok result comes wholly from one of the two normalizers. -/
theorem orchestrator_error_flow (decodeF : List Nat → Except Str Str)
    (parseLib : Str → Except Str GNode) (readLib : List Nat → Except Str RGResult)
    (buffer : List Nat) :
    (∀ e, decodeF buffer = Except.error e →
      parseGedcomWithFallback decodeF parseLib readLib buffer =
        Except.error (decodeErrorMsg e)) ∧
    (∀ t e1 g, decodeF buffer = Except.ok t →
      primaryAttempt parseLib t = Except.error e1 →
      readLib buffer = Except.ok g →
      parseGedcomWithFallback decodeF parseLib readLib buffer =
        Except.ok (normalizeReadGedcomResult g)) ∧
    (∀ t e1 e2, decodeF buffer = Except.ok t →
      primaryAttempt parseLib t = Except.error e1 →
      readLib buffer = Except.error e2 →
      parseGedcomWithFallback decodeF parseLib readLib buffer =
        Except.error (combinedErrorMsg e1 e2)) ∧
    (∀ r, parseGedcomWithFallback decodeF parseLib readLib buffer = Except.ok r →
      (∃ t, decodeF buffer = Except.ok t ∧ primaryAttempt parseLib t = Except.ok r) ∨
      (∃ t e1 g, decodeF buffer = Except.ok t ∧
        primaryAttempt parseLib t = Except.error e1 ∧
        readLib buffer = Except.ok g ∧ r = normalizeReadGedcomResult g)) := by
  refine ⟨?_, ?_, ?_, ?_⟩
  · intro e he
    unfold parseGedcomWithFallback
    rw [he]
  · intro t e1 g ht h1 hg
    unfold parseGedcomWithFallback
    rw [ht]
    dsimp only
    rw [h1, hg]
  · intro t e1 e2 ht h1 hg
    unfold parseGedcomWithFallback
    rw [ht]
    dsimp only
    rw [h1, hg]
  · intro r hr
    unfold parseGedcomWithFallback at hr
    cases hd : decodeF buffer with
    | error e => rw [hd] at hr; exact Except.noConfusion hr
    | ok t =>
      rw [hd] at hr
      dsimp only at hr
      cases hp : primaryAttempt parseLib t with
      | ok r2 =>
        rw [hp] at hr
        injection hr with h2
        subst h2
        exact Or.inl ⟨t, rfl, hp⟩
      | error e1 =>
        rw [hp] at hr
        cases hg : readLib buffer with
        | error e2 => rw [hg] at hr; exact Except.noConfusion hr
        | ok g =>
          rw [hg] at hr
          injection hr with h2
          exact Or.inr ⟨t, e1, g, rfl, hp, rfl, h2.symm⟩

/-- Witness for C4: a failing decode surfaces the decode error. -/
theorem orchestrator_error_flow_witness :
    parseGedcomWithFallback decodeFailBad parseLibEmptyTree readLibFail [] =
      Except.error (decodeErrorMsg ("bad".data)) :=
  (orchestrator_error_flow decodeFailBad parseLibEmptyTree readLibFail []).1
    ("bad".data) rfl

theorem prefix3_iff (x y z : Nat) (b : List Nat) :
    List.isPrefixOf [x, y, z] b = true ↔
      (3 ≤ b.length ∧ b.getD 0 0 = x ∧ b.getD 1 0 = y ∧ b.getD 2 0 = z) := by
  match b with
  | [] => simp [List.isPrefixOf]
  | [a] => simp [List.isPrefixOf]
  | [a, c] => simp [List.isPrefixOf]
  | a :: c :: d :: t =>
    simp [List.isPrefixOf, List.getD]
    constructor
    · rintro ⟨h1, h2, h3⟩
      omega
    · rintro ⟨h1, h2, h3⟩
      omega

theorem prefix2_iff (x y : Nat) (b : List Nat) :
    List.isPrefixOf [x, y] b = true ↔
      (2 ≤ b.length ∧ b.getD 0 0 = x ∧ b.getD 1 0 = y) := by
  match b with
  | [] => simp [List.isPrefixOf]
  | [a] => simp [List.isPrefixOf]
  | a :: c :: t =>
    simp [List.isPrefixOf, List.getD]
    constructor
    · rintro ⟨h1, h2⟩
      omega
    · rintro ⟨h1, h2⟩
      omega

/-- Claim C5: the source encoding detector coincides with the reference
definition written from the spec (prefix checks for the three marks, both
UTF-16 marks decoding little-endian, UTF-8 otherwise). -/
theorem detect_matches_reference (buffer : List Nat) :
    detectAndDecodeGedcom buffer = detectAndDecodeSpec buffer := by
  unfold detectAndDecodeGedcom detectAndDecodeSpec
  have h3 := prefix3_iff 0xEF 0xBB 0xBF buffer
  have hff := prefix2_iff 0xFF 0xFE buffer
  have hfe := prefix2_iff 0xFE 0xFF buffer
  split_ifs with a1 a2 a3 a4 a5 a6 a7 <;> simp_all

theorem validUtf8_head_le {b0 : Nat} {t : List Nat}
    (h : ValidUtf8 (b0 :: t)) : b0 ≤ 0xF4 := by
  cases h with
  | one hb _ => omega
  | two hb hb2 _ _ => omega
  | three hb hb2 _ _ _ _ => omega
  | four hb hb2 _ _ _ _ _ => omega

/-- Claim C9 is false as stated: a valid UTF-8 payload that itself starts
with the UTF-8 byte-order mark decodes differently with and without the
prepended mark (the detector strips only one mark). -/
theorem bom_transparency_counterexample :
    ValidUtf8 [0xEF, 0xBB, 0xBF] ∧
    detectAndDecodeGedcom ([0xEF, 0xBB, 0xBF] ++ [0xEF, 0xBB, 0xBF]) ≠
      detectAndDecodeGedcom [0xEF, 0xBB, 0xBF] := by
  refine ⟨ValidUtf8.three (by omega) (by omega) (by decide) (by decide) (by decide)
    ValidUtf8.nil, by decide⟩

/-- Claim C9 (amended): for every valid UTF-8 byte sequence that does not
itself begin with the UTF-8 byte-order mark, prepending the mark leaves the
detector output unchanged. -/
theorem bom_transparent (b : List Nat) (hv : ValidUtf8 b)
    (hn : List.isPrefixOf [0xEF, 0xBB, 0xBF] b = false) :
    detectAndDecodeGedcom ([0xEF, 0xBB, 0xBF] ++ b) = detectAndDecodeGedcom b := by
  have hl : detectAndDecodeGedcom ([0xEF, 0xBB, 0xBF] ++ b) = utf8Decode b := by
    unfold detectAndDecodeGedcom
    rw [if_pos]
    · rfl
    · refine ⟨by simp, rfl, rfl, rfl⟩
  rw [hl]
  cases b with
  | nil => rfl
  | cons b0 t =>
    have hbound : b0 ≤ 0xF4 := validUtf8_head_le hv
    unfold detectAndDecodeGedcom
    rw [if_neg, if_neg, if_neg]
    · rintro ⟨h1, h2, h3⟩
      simp at h2 h3
      omega
    · rintro ⟨h1, h2, h3⟩
      simp at h2
      omega
    · intro hc
      have hpm : List.isPrefixOf [0xEF, 0xBB, 0xBF] (b0 :: t) = true :=
        (prefix3_iff _ _ _ _).mpr hc
      rw [hn] at hpm
      exact Bool.noConfusion hpm

/-- Witness for the amended C9 on a one-byte ASCII payload. -/
theorem bom_transparent_witness :
    detectAndDecodeGedcom ([0xEF, 0xBB, 0xBF] ++ [0x41]) = detectAndDecodeGedcom [0x41] :=
  bom_transparent [0x41] (ValidUtf8.one (by omega) ValidUtf8.nil) (by decide)

end GedcomSpec
